import Mathlib

/-!
Verification of the Aura task scheduler (`src/main.js`).

The development shallowly embeds the parts of `TaskScheduler` that carry
logic: the conflict resolver (`resolveConflicts`), the sorted view of the
IndexedDB store (`loadTasks`), the AI-batch ingestion (`addTasksFromAI`),
the drag-and-drop re-timestamping (`handleTaskReorder`), the "resolve all"
button handler, and the AI response parser (`parseTaskFromAI`) together
with its regexes and `JSON.parse`.

Conventions of the embedding:
* timestamps are milliseconds since the epoch, as `Int` (a JS `Date` holds
  exactly this value; task times in scope are valid dates);
* the current clock is a `Clock` parameter: `midnight` is today at
  00:00 local in ms (what `setHours` writes against), `hour` is
  `getHours()`, `now` is the current instant (used for `created`);
* the IndexedDB object store is a `List Task` in key (insertion) order,
  with the auto-increment key counter carried alongside;
* JS object mutation of a function argument is made explicit where a claim
  is about it: `resolveConflictsPair` returns the pair
  (returned object, state of the caller's argument object after the call);
  in JS both are the same reference.
-/

namespace Aura

/-- One hour in milliseconds, as in `const oneHour = 60 * 60 * 1000`. -/
def oneHour : Int := 60 * 60 * 1000

/-- The ambient wall clock, fixed for one operation.  `midnight` is today
00:00 local (ms since epoch), `hour` is `Date.getHours()` at the moment of
the call, `now` is the current instant in ms. -/
structure Clock where
  midnight : Int
  hour : Nat
  now : Int
deriving DecidableEq

/-- A task record as stored in IndexedDB.  `title` is `Option` because the
code never validates it: a candidate without a `title` yields a record with
an `undefined` title.  `time` and `created` are instants in ms. -/
structure Task where
  id : Nat
  title : Option String
  time : Int
  description : String
  created : Int
deriving DecidableEq

/-- A parsed candidate as consumed by `addTasksFromAI`: the `title`,
`time`, `description` fields read off one element of the parsed array. -/
structure TaskInfo where
  title : Option String
  time : Int
  description : Option String
deriving DecidableEq

/-- Code of `resolveConflicts(newTask)`: scan `this.tasks` in order; at the first
existing task within strictly less than one hour of the candidate's
(original) time, set the candidate's time to that task's time plus one
hour and stop (`break`); otherwise return the candidate unchanged. -/
def resolveConflicts : List Task → Task → Task
  | [], n => n
  | t :: ts, n =>
    if |n.time - t.time| < oneHour then { n with time := t.time + oneHour }
    else resolveConflicts ts n

/-- Variant of `resolveConflicts` with the aliasing made explicit: the first component
is the returned object, the second is the state of the caller's argument
object after the call.  The JS function executes `newTask.time = …` on its
argument and then `return newTask`, so both components are one and the
same object. -/
def resolveConflictsPair : List Task → Task → Task × Task
  | [], n => (n, n)
  | t :: ts, n =>
    if |n.time - t.time| < oneHour then
      ({ n with time := t.time + oneHour }, { n with time := t.time + oneHour })
    else resolveConflictsPair ts n

/-- Code of `loadTasks`: `getAll()` returns the records in key order; the code then
sorts them with the comparator `(a, b) => new Date(a.time) - new Date(b.time)`.
`Array.prototype.sort` is required to be stable, which stable insertion
sort models. -/
def loadTasks (store : List Task) : List Task :=
  List.insertionSort (fun a b => a.time ≤ b.time) store

/-- The mutable state of the scheduler: the IndexedDB object store (in key
order) with its auto-increment counter, and the in-memory `this.tasks`. -/
structure AppState where
  store : List Task
  nextId : Nat
  tasks : List Task
deriving DecidableEq

/-- Code of `saveTask`: `store.add(task)` under `autoIncrement` assigns the next
key and appends the record. -/
def saveTask (st : AppState) (t : Task) : AppState :=
  { st with store := st.store ++ [{ t with id := st.nextId }], nextId := st.nextId + 1 }

/-- The task object built at the top of the `addTasksFromAI` loop:
`{title: taskInfo.title, time: taskInfo.time, description: taskInfo.description || "",
created: new Date().toISOString()}`.  The `id` field does not exist yet;
`saveTask` overwrites it, so its placeholder value is irrelevant. -/
def mkTask (clock : Clock) (info : TaskInfo) : Task :=
  { id := 0
    title := info.title
    time := info.time
    description := info.description.getD ""
    created := clock.now }

/-- Code of `addTasksFromAI(taskInfoArray)`: for each candidate, build the task,
run it through `resolveConflicts` — which scans `this.tasks`, a list this
loop never updates — and `saveTask` it; after the loop, `loadTasks`
refreshes `this.tasks` from the store once. -/
def addTasksFromAI (clock : Clock) : List TaskInfo → AppState → AppState
  | [], st => { st with tasks := loadTasks st.store }
  | info :: rest, st =>
    let task := mkTask clock info
    let resolved := resolveConflicts st.tasks task
    addTasksFromAI clock rest (saveTask st resolved)

/-- Modelled from the spec: the orchestrator the specification describes,
in which each candidate is resolved "against the **current persisted**
sorted list (not a snapshot from before this batch)", so that later
candidates see candidates persisted earlier in the same batch.  Used only
to compare the specified behaviour with `addTasksFromAI`. -/
def addTasksFromAISpecModel (clock : Clock) : List TaskInfo → AppState → AppState
  | [], st => { st with tasks := loadTasks st.store }
  | info :: rest, st =>
    let task := mkTask clock info
    let resolved := resolveConflicts (loadTasks st.store) task
    addTasksFromAISpecModel clock rest (saveTask st resolved)

/-- Ids `n, n+1, …` as assigned by consecutive `saveTask` calls. -/
def assignIds : Nat → List Task → List Task
  | _, [] => []
  | n, t :: ts => { t with id := n } :: assignIds (n + 1) ts

/-- Loop of the sweep, element by element: `done` are the
already-iterated (possibly mutated) elements, `rest` those still to
iterate.  Each iteration scans the current array (mutated prefix followed
by the original suffix) and replaces the iterated element by the object
that `resolveConflicts` mutated in place. -/
def sweepGo : List Task → List Task → List Task
  | done, [] => done
  | done, t :: rest =>
    let t' := resolveConflicts (done ++ t :: rest) t
    sweepGo (done ++ [t']) rest

/-- The sweep of the `resolveConflicts` button handler:
`for (const task of this.tasks) await this.resolveConflicts(task)`. -/
def sweepAll (mem : List Task) : List Task :=
  sweepGo [] mem

/-- The `resolveConflicts` button handler: sweep `this.tasks`, then
`loadTasks()` (which reassigns `this.tasks` from the store) and render. -/
def handleResolveAll (st : AppState) : AppState :=
  let afterSweep := { st with tasks := sweepAll st.tasks }
  { afterSweep with tasks := loadTasks afterSweep.store }

/-- Semantics of `store.put(task)`: overwrite the record whose key equals `task.id`,
or append the record if no such key exists. -/
def putTask (t : Task) (store : List Task) : List Task :=
  if store.any (fun u => u.id = t.id) then
    store.map (fun u => if u.id = t.id then t else u)
  else store ++ [t]

/-- One iteration of the `handleTaskReorder` loop for the id found at DOM
position `i`: find the task in `this.tasks`, set its time to
`09:00 + i` hours of today (`setHours(9 + i)` on a copy of the 09:00
anchor), mutating the in-memory object, and `put` it into the store.
A missing id is skipped (the position is still consumed). -/
def reorderGo (clock : Clock) : Nat → List Nat → AppState → AppState
  | _, [], st => st
  | i, tid :: rest, st =>
    match st.tasks.find? (fun t => t.id = tid) with
    | none => reorderGo clock (i + 1) rest st
    | some task =>
      let task' := { task with time := clock.midnight + ((9 + i : Nat) : Int) * oneHour }
      let st' := { st with
        tasks := st.tasks.map (fun u => if u.id = tid then task' else u)
        store := putTask task' st.store }
      reorderGo clock (i + 1) rest st'

/-- Code of `handleTaskReorder`: walk the DOM order (position 0 first), then
reload the sorted view from the store. -/
def handleTaskReorder (clock : Clock) (orderedIds : List Nat) (st : AppState) : AppState :=
  let st' := reorderGo clock 0 orderedIds st
  { st' with tasks := loadTasks st'.store }

/-- The time the reorder loop assigns to DOM position `i`. -/
def reorderTimeAt (clock : Clock) (i : Nat) : Int :=
  clock.midnight + ((9 + i : Nat) : Int) * oneHour

/-- Position of an id in the supplied order, if present. -/
def idxIn (tid : Nat) : List Nat → Option Nat
  | [] => none
  | x :: xs => if x = tid then some 0 else (idxIn tid xs).map (fun j => j + 1)

/-- The per-record effect of a whole reorder pass, for stating what
`handleTaskReorder` does to the store: a record whose id sits at position
`i` of the supplied order gets the position-`i` time, any other record is
untouched. -/
def reorderedRecord (clock : Clock) (orderedIds : List Nat) (t : Task) : Task :=
  match idxIn t.id orderedIds with
  | some i => { t with time := reorderTimeAt clock i }
  | none => t

/-! A small backtracking regex engine.

The parser's five regexes use only: literals (with the `i` flag),
single-character classes, greedy `*` / `?` / `{1,2}` over a class, lazy
`*?` / `+?` over a class, alternation, one lookahead, `$`, and capture
groups.  The engine below implements exactly ECMAScript matching for this
fragment: leftmost match, preference order of the operators, atomic
lookahead, captures recorded on the successful path only. -/

/-- ECMAScript `\s` (WhiteSpace ∪ LineTerminator), also the set trimmed by
`String.prototype.trim`. -/
def isSpaceJS (c : Char) : Bool :=
  c.toNat = 32 || c.toNat = 9 || c.toNat = 10 || c.toNat = 11 || c.toNat = 12 ||
  c.toNat = 13 || c.toNat = 160 || c.toNat = 5760 ||
  (8192 ≤ c.toNat && c.toNat ≤ 8202) ||
  c.toNat = 8232 || c.toNat = 8233 || c.toNat = 8239 || c.toNat = 8287 ||
  c.toNat = 12288 || c.toNat = 65279

/-- ECMAScript `.` without the `s` flag: any character but a line
terminator. -/
def isDotJS (c : Char) : Bool :=
  !(c.toNat = 10 || c.toNat = 13 || c.toNat = 8232 || c.toNat = 8233)

/-- ECMAScript `\d`. -/
def isDigitJS (c : Char) : Bool :=
  48 ≤ c.toNat && c.toNat ≤ 57

/-- Regular expressions over the fragment the source uses.  Repetition
operators are restricted to single-character classes, which is all the
source's regexes contain. -/
inductive Rx where
  | emp : Rx
  | cls (p : Char → Bool) : Rx
  | seq (a b : Rx) : Rx
  | alt (a b : Rx) : Rx
  | starG (p : Char → Bool) : Rx
  | starL (p : Char → Bool) : Rx
  | opt (a : Rx) : Rx
  | look (a : Rx) : Rx
  | eos : Rx
  | grp (n : Nat) (a : Rx) : Rx

/-- Captures recorded so far: group number ↦ consumed characters. -/
def Caps := List (Nat × List Char)

/-- Greedy star of a character class, in continuation style: consume as
many characters as possible, backtracking one at a time. -/
def starGRun (p : Char → Bool) (k : List Char → Option (List Char × Caps)) :
    List Char → Option (List Char × Caps)
  | [] => k []
  | c :: rest =>
    if p c then (starGRun p k rest).orElse (fun _ => k (c :: rest))
    else k (c :: rest)

/-- Lazy star of a character class: consume as few characters as
possible, extending one at a time. -/
def starLRun (p : Char → Bool) (k : List Char → Option (List Char × Caps)) :
    List Char → Option (List Char × Caps)
  | [] => k []
  | c :: rest =>
    (k (c :: rest)).orElse (fun _ => if p c then starLRun p k rest else none)

/-- The matcher: `mrun r s caps k` tries to match `r` at the start of `s`
and passes the rest of the input and the updated captures to `k`,
backtracking through the alternatives in ECMAScript preference order. -/
def mrun : Rx → List Char → Caps → (List Char → Caps → Option (List Char × Caps)) →
    Option (List Char × Caps)
  | .emp, s, cp, k => k s cp
  | .cls p, s, cp, k =>
    match s with
    | [] => none
    | c :: rest => if p c then k rest cp else none
  | .seq a b, s, cp, k => mrun a s cp (fun s1 cp1 => mrun b s1 cp1 k)
  | .alt a b, s, cp, k => (mrun a s cp k).orElse (fun _ => mrun b s cp k)
  | .starG p, s, cp, k => starGRun p (fun s1 => k s1 cp) s
  | .starL p, s, cp, k => starLRun p (fun s1 => k s1 cp) s
  | .opt a, s, cp, k => (mrun a s cp k).orElse (fun _ => k s cp)
  | .look a, s, cp, k =>
    match mrun a s cp (fun s2 cp2 => some (s2, cp2)) with
    | some (_, cp2) => k s cp2
    | none => none
  | .eos, s, cp, k =>
    match s with
    | [] => k s cp
    | _ :: _ => none
  | .grp n a, s, cp, k =>
    mrun a s cp (fun s1 cp1 => k s1 ((n, s.take (s.length - s1.length)) :: cp1))

/-- Leftmost search: try a full match at each start position, earliest
first — the semantics of `String.prototype.match` without the `g` flag. -/
def searchRun (r : Rx) : List Char → Option (List Char × Caps)
  | [] => mrun r [] [] (fun s1 cp => some (s1, cp))
  | c :: rest =>
    (mrun r (c :: rest) [] (fun s1 cp => some (s1, cp))).orElse
      (fun _ => searchRun r rest)

/-- The match result as its capture table; group 0 is the whole match. -/
def firstMatch (r : Rx) (s : String) : Option Caps :=
  (searchRun (.grp 0 r) s.data).map (fun x => x.2)

/-- Lookup of `match[n]`: the text of group `n`, `none` when the group did not
participate in the match. -/
def capGet (cp : Caps) (n : Nat) : Option (List Char) :=
  (List.find? (fun x => x.1 = n) cp).map (fun x => x.2)

/-- A case-insensitive literal, as under the `i` flag. -/
def litCI (w : String) : Rx :=
  w.data.foldr (fun c r => .seq (.cls (fun x => x.toLower = c.toLower)) r) .emp

/-- The piece `\d{1,2}`, greedy. -/
def digit12 : Rx :=
  .alt (.seq (.cls isDigitJS) (.cls isDigitJS)) (.cls isDigitJS)

/-- The piece `\d{2}`. -/
def digit2 : Rx := .seq (.cls isDigitJS) (.cls isDigitJS)

/-- The regex `/\[[\s\S]*?\]/` — the array fragment matcher. -/
def rxArray : Rx :=
  .seq (.cls (fun c => c = '[')) (.seq (.starL (fun _ => true)) (.cls (fun c => c = ']')))

/-- The regex `/\{[\s\S]*?\}/` — the object fragment matcher. -/
def rxObject : Rx :=
  .seq (.cls (fun c => c = '\x7b')) (.seq (.starL (fun _ => true)) (.cls (fun c => c = '\x7d')))

/-- The regex `/(?:task|meeting|appointment):?\s*(.+?)(?=\s*(?:at|on|time:)|$)/i` —
the lexical-fallback title matcher. -/
def rxTask : Rx :=
  .seq (.alt (litCI "task") (.alt (litCI "meeting") (litCI "appointment")))
    (.seq (.opt (.cls (fun c => c = ':')))
      (.seq (.starG isSpaceJS)
        (.seq (.grp 1 (.seq (.cls isDotJS) (.starL isDotJS)))
          (.look (.alt
            (.seq (.starG isSpaceJS) (.alt (litCI "at") (.alt (litCI "on") (litCI "time:"))))
            .eos)))))

/-- The regex `/(?:at|on|time:)\s*(\d{1,2}(?::\d{2})?\s*(?:am|pm)?)/i` — the
lexical-fallback time-phrase matcher. -/
def rxTime : Rx :=
  .seq (.alt (litCI "at") (.alt (litCI "on") (litCI "time:")))
    (.seq (.starG isSpaceJS)
      (.grp 1 (.seq digit12
        (.seq (.opt (.seq (.cls (fun c => c = ':')) digit2))
          (.seq (.starG isSpaceJS)
            (.opt (.alt (litCI "am") (litCI "pm"))))))))

/-- The regex `/(\d{1,2})(?::(\d{2}))?\s*(am|pm)?/i` — the normalizer's regex in
`parseTimeString`. -/
def rxClockStr : Rx :=
  .seq (.grp 1 digit12)
    (.seq (.opt (.seq (.cls (fun c => c = ':')) (.grp 2 digit2)))
      (.seq (.starG isSpaceJS)
        (.opt (.grp 3 (.alt (litCI "am") (litCI "pm"))))))

/-! Semantics of `JSON.parse`.

A recursive-descent parser for the JSON grammar, which is the
specification of `JSON.parse`; `none` models a thrown `SyntaxError`.
Numeric literals are kept as their lexemes: the scheduler never computes
with a JSON number. -/

/-- JSON values. -/
inductive Json where
  | null : Json
  | bool (b : Bool) : Json
  | num (lexeme : String) : Json
  | str (s : String) : Json
  | arr (elems : List Json) : Json
  | obj (fields : List (String × Json)) : Json

/-- JSON insignificant whitespace (space, tab, line feed, carriage
return). -/
def isJsonWs (c : Char) : Bool :=
  c.toNat = 32 || c.toNat = 9 || c.toNat = 10 || c.toNat = 13

/-- Skip JSON whitespace. -/
def skipWs (l : List Char) : List Char :=
  l.dropWhile isJsonWs

/-- Value of a hexadecimal digit. -/
def hexVal (c : Char) : Option Nat :=
  if 48 ≤ c.toNat ∧ c.toNat ≤ 57 then some (c.toNat - 48)
  else if 97 ≤ c.toNat ∧ c.toNat ≤ 102 then some (c.toNat - 87)
  else if 65 ≤ c.toNat ∧ c.toNat ≤ 70 then some (c.toNat - 55)
  else none

/-- Body of a JSON string, after the opening quote; `acc` holds the
decoded characters in reverse. -/
def parseJStringGo : List Char → List Char → Option (String × List Char)
  | acc, '"' :: rest => some (String.mk acc.reverse, rest)
  | acc, '\\' :: e :: rest =>
    match e with
    | '"' => parseJStringGo ('"' :: acc) rest
    | '\\' => parseJStringGo ('\\' :: acc) rest
    | '/' => parseJStringGo ('/' :: acc) rest
    | 'b' => parseJStringGo ('\x08' :: acc) rest
    | 'f' => parseJStringGo ('\x0c' :: acc) rest
    | 'n' => parseJStringGo ('\n' :: acc) rest
    | 'r' => parseJStringGo ('\r' :: acc) rest
    | 't' => parseJStringGo ('\t' :: acc) rest
    | 'u' =>
      match rest with
      | h1 :: h2 :: h3 :: h4 :: rest' =>
        match hexVal h1, hexVal h2, hexVal h3, hexVal h4 with
        | some a, some b, some c, some d =>
          parseJStringGo (Char.ofNat (((a * 16 + b) * 16 + c) * 16 + d) :: acc) rest'
        | _, _, _, _ => none
      | _ => none
    | _ => none
  | acc, c :: rest => if c.toNat < 32 then none else parseJStringGo (c :: acc) rest
  | _, [] => none

/-- One or more decimal digits. -/
def digits1 (l : List Char) : Option (List Char × List Char) :=
  match l.span isDigitJS with
  | ([], _) => none
  | (ds, rest) => some (ds, rest)

/-- A JSON number literal, returned as its lexeme:
`-? (0 | [1-9][0-9]*) (. [0-9]+)? ([eE][+-]?[0-9]+)?`. -/
def parseNumber (l : List Char) : Option (String × List Char) := do
  let (sign, l1) := match l with
    | '-' :: r => (['-'], r)
    | _ => (([] : List Char), l)
  let (ip, l2) ← match l1 with
    | '0' :: r => some (['0'], r)
    | c :: _ =>
      if 49 ≤ c.toNat ∧ c.toNat ≤ 57 then digits1 l1 else none
    | [] => none
  let (fp, l3) ← match l2 with
    | '.' :: r => (digits1 r).map (fun x => ('.' :: x.1, x.2))
    | _ => some (([] : List Char), l2)
  let (ep, l4) ← match l3 with
    | c :: r =>
      if c = 'e' ∨ c = 'E' then
        match r with
        | s :: r' =>
          if s = '+' ∨ s = '-' then (digits1 r').map (fun x => (c :: s :: x.1, x.2))
          else (digits1 r).map (fun x => (c :: x.1, x.2))
        | [] => none
      else some (([] : List Char), l3)
    | [] => some (([] : List Char), l3)
  some (String.mk (sign ++ ip ++ fp ++ ep), l4)

mutual

/-- A JSON value, preceded by optional whitespace. -/
def parseVal : Nat → List Char → Option (Json × List Char)
  | 0, _ => none
  | fuel + 1, l =>
    match skipWs l with
    | 'n' :: 'u' :: 'l' :: 'l' :: r => some (.null, r)
    | 't' :: 'r' :: 'u' :: 'e' :: r => some (.bool true, r)
    | 'f' :: 'a' :: 'l' :: 's' :: 'e' :: r => some (.bool false, r)
    | '"' :: r => (parseJStringGo [] r).map (fun x => (.str x.1, x.2))
    | '[' :: r =>
      (match skipWs r with
       | ']' :: r' => some (.arr [], r')
       | _ => parseItems fuel r [])
    | '\x7b' :: r =>
      (match skipWs r with
       | '\x7d' :: r' => some (.obj [], r')
       | _ => parseFields fuel r [])
    | l' => (parseNumber l').map (fun x => (.num x.1, x.2))

/-- Elements of a non-empty array, accumulated in reverse. -/
def parseItems : Nat → List Char → List Json → Option (Json × List Char)
  | 0, _, _ => none
  | fuel + 1, l, acc => do
    let (v, r) ← parseVal fuel l
    match skipWs r with
    | ',' :: r' => parseItems fuel r' (v :: acc)
    | ']' :: r' => some (.arr (v :: acc).reverse, r')
    | _ => none

/-- Members of a non-empty object, accumulated in reverse. -/
def parseFields : Nat → List Char → List (String × Json) → Option (Json × List Char)
  | 0, _, _ => none
  | fuel + 1, l, acc =>
    match skipWs l with
    | '"' :: r => do
      let (key, r1) ← parseJStringGo [] r
      match skipWs r1 with
      | ':' :: r2 => do
        let (v, r3) ← parseVal fuel r2
        match skipWs r3 with
        | ',' :: r4 => parseFields fuel r4 ((key, v) :: acc)
        | '\x7d' :: r4 => some (.obj ((key, v) :: acc).reverse, r4)
        | _ => none
      | _ => none
    | _ => none

end

/-- Semantics of `JSON.parse`: the whole string must be one JSON text. -/
def jsonParse (s : String) : Option Json :=
  match parseVal (s.length + 1) s.data with
  | some (j, rest) => if skipWs rest = [] then some j else none
  | none => none

/-! Embedding of `parseTaskFromAI` and the time normalizer. -/

/-- A candidate as returned by `parseTaskFromAI`: either an element of a
parsed JSON fragment, or the `{title, time}` object built by the lexical
fallback (whose `time` is the `toISOString()` of the instant held here in
ms). -/
inductive Cand where
  | fromJson (j : Json) : Cand
  | lexical (title : String) (time : Int) : Cand

/-- Semantics of `String.prototype.trim`. -/
def trimJS (l : List Char) : List Char :=
  ((l.dropWhile isSpaceJS).reverse.dropWhile isSpaceJS).reverse

/-- Semantics of `parseInt` on the digit strings captured here. -/
def digitsToNat (l : List Char) : Nat :=
  l.foldl (fun acc c => acc * 10 + (c.toNat - 48)) 0

/-- Code of `getDefaultTime`: `now.setHours(now.getHours() + 1, 0, 0, 0)` — one
hour from now, on the hour. -/
def getDefaultTime (clock : Clock) : Int :=
  clock.midnight + (((clock.hour + 1 : Nat) : Int) * 3600000)

/-- Code of `parseTimeString`: run the `H[:MM][am|pm]` regex, apply the two
meridiem adjustments in order, and write the result onto today via
`setHours(hours, minutes, 0, 0)`; without a digit in the input, fall back
to `getDefaultTime`. -/
def parseTimeString (clock : Clock) (timeStr : String) : Int :=
  match firstMatch rxClockStr timeStr with
  | some cp =>
    match capGet cp 1 with
    | some hstr =>
      let hours0 := digitsToNat hstr
      let minutes := match capGet cp 2 with
        | some m => digitsToNat m
        | none => 0
      let period := match capGet cp 3 with
        | some p => String.mk (p.map Char.toLower)
        | none => ""
      let hours1 := if period = "pm" ∧ hours0 < 12 then hours0 + 12 else hours0
      let hours2 := if period = "am" ∧ hours1 = 12 then 0 else hours1
      clock.midnight + (((hours2 : Nat) : Int) * 3600000 + ((minutes : Nat) : Int) * 60000)
    | none => getDefaultTime clock
  | none => getDefaultTime clock

/-- The first match of the array regex, as a string. -/
def arrayMatchStr (s : String) : Option String :=
  (firstMatch rxArray s).bind (fun cp => (capGet cp 0).map String.mk)

/-- The first match of the object regex, as a string. -/
def braceMatchStr (s : String) : Option String :=
  (firstMatch rxObject s).bind (fun cp => (capGet cp 0).map String.mk)

/-- Capture `taskMatch[1]`: the captured title phrase of the lexical fallback. -/
def taskTitleCap (s : String) : Option String :=
  (firstMatch rxTask s).bind (fun cp => (capGet cp 1).map String.mk)

/-- Capture `timeMatch[1]`: the captured time phrase of the lexical fallback. -/
def timeCap (s : String) : Option String :=
  (firstMatch rxTime s).bind (fun cp => (capGet cp 1).map String.mk)

/-- The lexical fallback tier: a title phrase yields one candidate whose
time comes from the adjacent time phrase, or from `getDefaultTime`. -/
def lexicalRule (clock : Clock) (s : String) : Option (List Cand) :=
  match taskTitleCap s with
  | some t =>
    some [Cand.lexical (String.mk (trimJS t.data))
      (match timeCap s with
       | some ts => parseTimeString clock ts
       | none => getDefaultTime clock)]
  | none => none

/-- The single-object tier: `JSON.parse` the first `{…}` fragment and wrap
it as a one-element candidate list.  A parse error is caught by the
enclosing `try` and yields `null` — the lexical tier is *not* tried. -/
def objectRule (clock : Clock) (s : String) : Option (List Cand) :=
  match braceMatchStr s with
  | some str =>
    (match jsonParse (String.mk (trimJS str.data)) with
     | some j => some [Cand.fromJson j]
     | none => none)
  | none => lexicalRule clock s

/-- Code of `parseTaskFromAI`: array tier, then object tier, then lexical tier;
one `try/catch` wraps all three, so a `JSON.parse` failure in a matched
fragment returns `null` at once. -/
def parseTaskFromAI (clock : Clock) (s : String) : Option (List Cand) :=
  match arrayMatchStr s with
  | some str =>
    (match jsonParse (String.mk (trimJS str.data)) with
     | some (Json.arr xs) => some (xs.map Cand.fromJson)
     | some _ => objectRule clock s
     | none => none)
  | none => objectRule clock s

/-! Helper lemmas shared by several results. -/

/-- Resolution never touches the fields other than `time`. -/
theorem resolveConflicts_title (ts : List Task) (n : Task) :
    (resolveConflicts ts n).title = n.title := by
  induction ts with
  | nil => rfl
  | cons t ts ih =>
    by_cases h : |n.time - t.time| < oneHour
    · simp [resolveConflicts, h]
    · simpa [resolveConflicts, h] using ih

/-- The sweep loop only appends to the already-processed prefix. -/
theorem sweepGo_prefix : ∀ (rest done : List Task), ∃ tail, sweepGo done rest = done ++ tail
  | [], done => ⟨[], by simp [sweepGo]⟩
  | t :: rest, done => by
    obtain ⟨tail, h⟩ := sweepGo_prefix rest (done ++ [resolveConflicts (done ++ t :: rest) t])
    refine ⟨resolveConflicts (done ++ t :: rest) t :: tail, ?_⟩
    simpa [sweepGo] using h

/-! Results for the individual claims. -/

/-- C1 (ConflictResolver single-pass policy): scanning the existing tasks
in order, the first one within strictly less than one hour of the
candidate's time determines the result — the candidate's time becomes
exactly that task's time plus one hour, and nothing past it is consulted;
when no existing task is within one hour the candidate comes back
unchanged. -/
theorem claim1_resolve_single_pass :
    (∀ (n t : Task) (pre post : List Task),
      (∀ u ∈ pre, ¬ |n.time - u.time| < oneHour) →
      |n.time - t.time| < oneHour →
      resolveConflicts (pre ++ t :: post) n = { n with time := t.time + oneHour }) ∧
    (∀ (n : Task) (ts : List Task),
      (∀ u ∈ ts, ¬ |n.time - u.time| < oneHour) →
      resolveConflicts ts n = n) := by
  constructor
  · intro n t pre post hpre ht
    induction pre with
    | nil => simp [resolveConflicts, ht]
    | cons u us ih =>
      have hu : ¬ |n.time - u.time| < oneHour := hpre u (by simp)
      simpa [resolveConflicts, hu] using ih (fun v hv => hpre v (by simp [hv]))
  · intro n ts h
    induction ts with
    | nil => rfl
    | cons u us ih =>
      have hu : ¬ |n.time - u.time| < oneHour := h u (by simp)
      simpa [resolveConflicts, hu] using ih (fun v hv => h v (by simp [hv]))

/-- Witness for C1: a new task at the very time of the sole existing task
moves to one hour later; a new task two hours away is untouched. -/
theorem claim1_resolve_single_pass_witness :
    resolveConflicts [⟨1, some "Business meeting", 0, "", 0⟩]
        ⟨0, some "Vet visit", 0, "", 0⟩ =
      ⟨0, some "Vet visit", oneHour, "", 0⟩ ∧
    resolveConflicts [⟨1, some "Business meeting", 2 * oneHour, "", 0⟩]
        ⟨0, some "Vet visit", 0, "", 0⟩ =
      ⟨0, some "Vet visit", 0, "", 0⟩ := by
  constructor
  · have h := claim1_resolve_single_pass.1 ⟨0, some "Vet visit", 0, "", 0⟩
      ⟨1, some "Business meeting", 0, "", 0⟩ [] [] (by simp) (by decide)
    simpa using h
  · exact claim1_resolve_single_pass.2 ⟨0, some "Vet visit", 0, "", 0⟩ _ (by decide)

/-- C3 is false on the code: `resolveConflicts` writes the shifted time
into the task object it was handed, so the caller's object does not keep
its `time` field.  Here the second component of `resolveConflictsPair` is
the caller's object after the call. -/
theorem claim3_purity_counterexample :
    (resolveConflictsPair [⟨1, some "Business meeting", 0, "", 0⟩]
        ⟨0, some "Vet visit", 0, "", 0⟩).2 ≠
      ⟨0, some "Vet visit", 0, "", 0⟩ := by
  decide

/-- C3 amended: `resolveConflicts` returns the very object it was given —
not a copy — after mutating that object's `time` field when a conflict is
found; the input object is left unchanged exactly when no existing task
conflicts with it. -/
theorem claim3_resolve_mutates_input :
    ∀ (ts : List Task) (n : Task),
      (resolveConflictsPair ts n).1 = (resolveConflictsPair ts n).2 ∧
      ((resolveConflictsPair ts n).2 = n ↔ ∀ u ∈ ts, ¬ |n.time - u.time| < oneHour) := by
  intro ts n
  induction ts with
  | nil => exact ⟨rfl, by simp [resolveConflictsPair]⟩
  | cons t ts ih =>
    by_cases h : |n.time - t.time| < oneHour
    · refine ⟨by simp [resolveConflictsPair, h], ?_⟩
      constructor
      · intro heq
        have htime : t.time + oneHour = n.time := by
          simpa [resolveConflictsPair, h] using congrArg Task.time heq
        rw [show n.time - t.time = oneHour by omega] at h
        simp [oneHour] at h
      · intro hall
        exact absurd h (hall t (by simp))
    · refine ⟨by simpa [resolveConflictsPair, h] using ih.1, ?_⟩
      rw [show (resolveConflictsPair (t :: ts) n).2 = (resolveConflictsPair ts n).2 by
        simp [resolveConflictsPair, h]]
      rw [ih.2]
      constructor
      · intro hall u hu
        rcases List.mem_cons.mp hu with rfl | hu
        · exact h
        · exact hall u hu
      · intro hall u hu
        exact hall u (by simp [hu])

/-- Closed form of the ingestion loop: every candidate is resolved
against `st.tasks` — the in-memory list as it stood when the batch
started, never touched inside the loop — and the resolved tasks are
appended to the store with consecutive ids; `this.tasks` is refreshed
from the store once at the end. -/
theorem addTasksFromAI_spec (clock : Clock) :
    ∀ (batch : List TaskInfo) (st : AppState),
      addTasksFromAI clock batch st =
        ⟨st.store ++ assignIds st.nextId
            (batch.map (fun i => resolveConflicts st.tasks (mkTask clock i))),
          st.nextId + batch.length,
          loadTasks (st.store ++ assignIds st.nextId
            (batch.map (fun i => resolveConflicts st.tasks (mkTask clock i))))⟩
  | [], st => by cases st; simp [addTasksFromAI, assignIds]
  | info :: rest, st => by
    have ih := addTasksFromAI_spec clock rest
      (saveTask st (resolveConflicts st.tasks (mkTask clock info)))
    show addTasksFromAI clock rest
      (saveTask st (resolveConflicts st.tasks (mkTask clock info))) = _
    rw [ih]
    cases st
    simp only [saveTask, assignIds, AppState.mk.injEq, List.map_cons, List.append_assoc,
      List.singleton_append, List.length_cons]
    exact ⟨trivial, by omega, trivial⟩

/-- Titles survive id assignment. -/
theorem assignIds_map_title : ∀ (n : Nat) (ts : List Task),
    (assignIds n ts).map Task.title = ts.map Task.title
  | _, [] => rfl
  | n, t :: ts => by simp [assignIds, assignIds_map_title (n + 1) ts]

/-- C2 is false on the code: within one batch, a candidate is resolved
against the in-memory list from before the batch, not against the live
store, so a second candidate at the very time of the first is *not*
shifted, while the orchestrator the spec describes would move it one hour
later. -/
theorem claim2_intra_batch_counterexample :
    (addTasksFromAI ⟨0, 0, 0⟩ [⟨some "A", 0, none⟩, ⟨some "B", 0, none⟩]
        ⟨[], 1, []⟩).store.map Task.time = [0, 0] ∧
    (addTasksFromAISpecModel ⟨0, 0, 0⟩ [⟨some "A", 0, none⟩, ⟨some "B", 0, none⟩]
        ⟨[], 1, []⟩).store.map Task.time = [0, oneHour] ∧
    (0 : Int) ≠ oneHour := by
  refine ⟨by decide, by decide, by decide⟩

/-- C2 amended: every candidate of a batch is resolved against the
snapshot of `this.tasks` taken before the batch started (the list is only
reloaded after the whole batch), so candidates inserted earlier in the
same batch are invisible and intra-batch conflicts are not detected. -/
theorem claim2_resolve_against_snapshot :
    ∀ (clock : Clock) (batch : List TaskInfo) (st : AppState),
      (addTasksFromAI clock batch st).store =
        st.store ++ assignIds st.nextId
          (batch.map (fun i => resolveConflicts st.tasks (mkTask clock i))) := by
  intro clock batch st
  rw [addTasksFromAI_spec]

/-- C9 is false on the code: a candidate with no `title` is not skipped —
it is persisted with an absent title, and the batch continues. -/
theorem claim9_title_validation_counterexample :
    (addTasksFromAI ⟨0, 0, 0⟩ [⟨none, 0, none⟩, ⟨some "B", 5 * oneHour, none⟩]
        ⟨[], 1, []⟩).store.map Task.title = [none, some "B"] := by
  decide

/-- C9 amended: no title validation exists — every candidate of the
batch, with or without a `title`, is persisted, in order, with its title
carried over verbatim (absent stays absent); none raises an error or is
skipped. -/
theorem claim9_no_candidate_skipped :
    ∀ (clock : Clock) (batch : List TaskInfo) (st : AppState),
      (addTasksFromAI clock batch st).store.map Task.title =
        st.store.map Task.title ++ batch.map TaskInfo.title := by
  intro clock batch st
  rw [addTasksFromAI_spec]
  simp [assignIds_map_title, List.map_map, Function.comp_def, resolveConflicts_title, mkTask]

/-- Inserting into a list that is sorted by time with time-ties in
ascending id order keeps it so, provided the inserted task's id beats
every equal-time resident — stability of the insertion point. -/
theorem orderedInsert_pairwise_time (t : Task) :
    ∀ l : List Task,
      l.Pairwise (fun a b => a.time ≤ b.time ∧ (a.time = b.time → a.id < b.id)) →
      (∀ u ∈ l, t.time = u.time → t.id < u.id) →
      (l.orderedInsert (fun a b => a.time ≤ b.time) t).Pairwise
        (fun a b => a.time ≤ b.time ∧ (a.time = b.time → a.id < b.id))
  | [], _, _ => by simp [List.orderedInsert]
  | u :: us, hl, ht => by
    rw [List.orderedInsert]
    by_cases h : t.time ≤ u.time
    · rw [if_pos h]
      refine List.Pairwise.cons ?_ hl
      intro v hv
      rcases List.mem_cons.mp hv with rfl | hv'
      · exact ⟨h, ht v (by simp)⟩
      · have huv := (List.pairwise_cons.mp hl).1 v hv'
        exact ⟨le_trans h huv.1, ht v (by simp [hv'])⟩
    · rw [if_neg h]
      have hut : u.time < t.time := not_le.mp h
      refine List.Pairwise.cons ?_
        (orderedInsert_pairwise_time t us (List.pairwise_cons.mp hl).2
          (fun v hv hveq => ht v (by simp [hv]) hveq))
      intro w hw
      rcases (List.mem_orderedInsert _).mp hw with rfl | hw'
      · exact ⟨le_of_lt hut, fun heq => absurd heq (ne_of_lt hut)⟩
      · exact (List.pairwise_cons.mp hl).1 w hw'

/-- Stable sorting a store whose ids ascend yields a view that is
non-decreasing in time with ties in ascending id order. -/
theorem loadTasks_pairwise :
    ∀ store : List Task,
      store.Pairwise (fun a b => a.id < b.id) →
      (loadTasks store).Pairwise
        (fun a b => a.time ≤ b.time ∧ (a.time = b.time → a.id < b.id))
  | [], _ => by simp [loadTasks, List.insertionSort]
  | t :: l, h => by
    rw [loadTasks, List.insertionSort]
    refine orderedInsert_pairwise_time t _
      (loadTasks_pairwise l (List.pairwise_cons.mp h).2) ?_
    intro u hu _
    exact (List.pairwise_cons.mp h).1 u ((List.mem_insertionSort _).mp hu)

/-- Ids assigned by a batch starting at `n` ascend and live in
`[n, n + length)`. -/
theorem assignIds_id_bounds : ∀ (n : Nat) (ts : List Task),
    (assignIds n ts).Pairwise (fun a b => a.id < b.id) ∧
    ∀ u ∈ assignIds n ts, n ≤ u.id ∧ u.id < n + ts.length
  | _, [] => ⟨List.Pairwise.nil, by simp [assignIds]⟩
  | n, t :: ts => by
    obtain ⟨hp, hb⟩ := assignIds_id_bounds (n + 1) ts
    rw [assignIds]
    constructor
    · refine List.Pairwise.cons ?_ hp
      intro u hu
      have h1 := (hb u hu).1
      show n < u.id
      omega
    · intro u hu
      rcases List.mem_cons.mp hu with rfl | hu'
      · simp
      · have := hb u hu'
        simp only [List.length_cons]
        omega

/-- C8 (sorted-view invariant): the sorted read of an id-ascending store
is non-decreasing in time with equal times in ascending id (insertion)
order; and after any ingestion batch run on a store satisfying the
auto-increment invariant, the store is still id-ascending and the
refreshed `this.tasks` view satisfies that very ordering. -/
theorem claim8_sorted_view :
    (∀ store : List Task,
      store.Pairwise (fun a b => a.id < b.id) →
      (loadTasks store).Pairwise
        (fun a b => a.time ≤ b.time ∧ (a.time = b.time → a.id < b.id))) ∧
    (∀ (clock : Clock) (batch : List TaskInfo) (st : AppState),
      st.store.Pairwise (fun a b => a.id < b.id) →
      (∀ u ∈ st.store, u.id < st.nextId) →
      (addTasksFromAI clock batch st).store.Pairwise (fun a b => a.id < b.id) ∧
      (∀ u ∈ (addTasksFromAI clock batch st).store,
        u.id < (addTasksFromAI clock batch st).nextId) ∧
      (addTasksFromAI clock batch st).tasks.Pairwise
        (fun a b => a.time ≤ b.time ∧ (a.time = b.time → a.id < b.id))) := by
  refine ⟨loadTasks_pairwise, ?_⟩
  intro clock batch st h1 h2
  rw [addTasksFromAI_spec]
  simp only []
  set L := batch.map (fun i => resolveConflicts st.tasks (mkTask clock i)) with hL
  obtain ⟨hp, hb⟩ := assignIds_id_bounds st.nextId L
  have hstore : (st.store ++ assignIds st.nextId L).Pairwise (fun a b => a.id < b.id) := by
    rw [List.pairwise_append]
    refine ⟨h1, hp, ?_⟩
    intro a ha b hb'
    have h3 := h2 a ha
    have h4 := (hb b hb').1
    omega
  refine ⟨hstore, ?_, loadTasks_pairwise _ hstore⟩
  intro u hu
  have hlen : L.length = batch.length := by simp [hL]
  rcases List.mem_append.mp hu with hu' | hu'
  · have := h2 u hu'
    omega
  · have := (hb u hu').2
    omega

/-- Witness for C8: a concrete id-ascending store with a time tie, and a
concrete batch on a store satisfying the auto-increment invariant. -/
theorem claim8_sorted_view_witness :
    ([⟨1, some "a", 5, "", 0⟩, ⟨2, some "b", 3, "", 0⟩,
        ⟨3, some "c", 5, "", 0⟩] : List Task).Pairwise (fun a b => a.id < b.id) ∧
    (loadTasks [⟨1, some "a", 5, "", 0⟩, ⟨2, some "b", 3, "", 0⟩, ⟨3, some "c", 5, "", 0⟩]).Pairwise
      (fun a b => a.time ≤ b.time ∧ (a.time = b.time → a.id < b.id)) := by
  constructor
  · decide
  · exact claim8_sorted_view.1 _ (by decide)

/-- An id that does not occur in the order has no position in it. -/
theorem idxIn_eq_none {tid : Nat} : ∀ {ids : List Nat}, tid ∉ ids → idxIn tid ids = none
  | [], _ => rfl
  | x :: xs, h => by
    have hx : ¬ x = tid := by
      intro hc
      refine h ?_
      rw [← hc]
      exact List.mem_cons_self x xs
    have hxs : tid ∉ xs := fun hc => h (List.mem_cons_of_mem x hc)
    simp [idxIn, hx, idxIn_eq_none hxs]

/-- Closed form of the reorder loop's effect on the store, with the DOM
walk starting at position `i`: the record whose id sits at position `j`
of the remaining order gets the position-`(i + j)` time, every other
record is untouched.  The hypotheses are the system invariants: the
supplied order has distinct ids, ids are unique (IndexedDB keys), and the
in-memory list holds exactly the stored records. -/
theorem reorderGo_store (clock : Clock) :
    ∀ (ids : List Nat) (i : Nat) (st : AppState),
      ids.Nodup →
      (st.tasks.map Task.id).Nodup →
      (st.store.map Task.id).Nodup →
      st.tasks.Perm st.store →
      (reorderGo clock i ids st).store =
        st.store.map (fun t =>
          match idxIn t.id ids with
          | some j => { t with time := reorderTimeAt clock (i + j) }
          | none => t)
  | [], i, st, _, _, _, _ => by
    simp [reorderGo, idxIn]
  | tid :: rest, i, st, hids, hT, hS, hP => by
    rcases hfind : st.tasks.find? (fun t => t.id = tid) with _ | task
    · have hnotid : ∀ t ∈ st.store, ¬ t.id = tid := by
        intro t ht
        have := List.find?_eq_none.mp hfind t (hP.mem_iff.mpr ht)
        simpa using this
      rw [reorderGo, hfind]
      show (reorderGo clock (i + 1) rest st).store = _
      rw [reorderGo_store clock rest (i + 1) st (List.nodup_cons.mp hids).2 hT hS hP]
      refine List.map_congr_left ?_
      intro t ht
      have h1 : ¬ tid = t.id := fun hc => hnotid t ht hc.symm
      simp only [idxIn, if_neg h1]
      cases hidx : idxIn t.id rest with
      | none => simp
      | some j =>
        have harith : i + 1 + j = i + (j + 1) := by omega
        simp [harith]
    · have htmem : task ∈ st.tasks := List.mem_of_find?_eq_some hfind
      have htid : task.id = tid := by simpa using List.find?_some hfind
      have htS : task ∈ st.store := hP.mem_iff.mp htmem
      rw [reorderGo, hfind]
      show (reorderGo clock (i + 1) rest
        { store := putTask { task with time := clock.midnight + ((9 + i : Nat) : Int) * oneHour } st.store
          nextId := st.nextId
          tasks := st.tasks.map (fun u => if u.id = tid
            then { task with time := clock.midnight + ((9 + i : Nat) : Int) * oneHour } else u) }).store = _
      set t' : Task := { task with time := clock.midnight + ((9 + i : Nat) : Int) * oneHour } with ht'
      have ht'id : t'.id = tid := htid
      have hput : putTask t' st.store = st.store.map (fun u => if u.id = tid then t' else u) := by
        rw [putTask]
        have hany : st.store.any (fun u => u.id = t'.id) = true :=
          List.any_eq_true.mpr ⟨task, htS, by simp [ht'id, htid]⟩
        rw [if_pos hany]
        refine List.map_congr_left ?_
        intro u _
        rw [ht'id]
      have hcompid : (Task.id ∘ fun u => if u.id = tid then t' else u) = Task.id := by
        funext u
        by_cases hu : u.id = tid
        · simp [hu, ht'id]
        · simp [hu]
      have hT' : ((st.tasks.map (fun u => if u.id = tid then t' else u)).map Task.id).Nodup := by
        rw [List.map_map, hcompid]
        exact hT
      have hS' : ((putTask t' st.store).map Task.id).Nodup := by
        rw [hput, List.map_map, hcompid]
        exact hS
      have hP' : (st.tasks.map (fun u => if u.id = tid then t' else u)).Perm
          (putTask t' st.store) := by
        rw [hput]
        exact hP.map _
      rw [reorderGo_store clock rest (i + 1) _ (List.nodup_cons.mp hids).2 hT' hS' hP']
      show (putTask t' st.store).map _ = _
      rw [hput, List.map_map]
      refine List.map_congr_left ?_
      intro t htm
      by_cases hcase : t.id = tid
      · have hteq : t = task :=
          List.inj_on_of_nodup_map hS htm htS (by rw [hcase, htid])
        have hrestnone : idxIn tid rest = none := idxIn_eq_none (List.nodup_cons.mp hids).1
        have h2 : tid = t.id := hcase.symm
        simp only [Function.comp_apply, if_pos hcase, idxIn, if_pos h2, ht'id, hrestnone]
        rw [hteq, ht']
        rfl
      · have h1 : ¬ tid = t.id := fun hc => hcase hc.symm
        simp only [Function.comp_apply, if_neg hcase, idxIn, if_neg h1]
        cases hidx : idxIn t.id rest with
        | none => simp
        | some j =>
          have harith : i + 1 + j = i + (j + 1) := by omega
          simp [harith]

/-- C5 is false on the code: the array regex grabs the text from the
*first* `[` to the first `]` after it; when that particular fragment is
not valid JSON, the one `try/catch` returns `null`, even though the text
also contains a well-formed array fragment and a well-formed object
fragment. -/
theorem claim5_precedence_counterexample :
    parseTaskFromAI ⟨0, 0, 0⟩ "[a] [1] \x7b\"t\":1\x7d" = none ∧
    jsonParse "[1]" = some (Json.arr [Json.num "1"]) ∧
    jsonParse "\x7b\"t\":1\x7d" = some (Json.obj [("t", Json.num "1")]) :=
  ⟨rfl, rfl, rfl⟩

/-- C5 amended: the array tier is tried before the object tier — whenever
the first `[`-to-`]` fragment parses as a JSON array, its elements are
returned as the candidates, whatever object fragment the text also
contains. -/
theorem claim5_array_rule_first :
    ∀ (clock : Clock) (s str : String) (xs : List Json),
      arrayMatchStr s = some str →
      jsonParse (String.mk (trimJS str.data)) = some (Json.arr xs) →
      parseTaskFromAI clock s = some (xs.map Cand.fromJson) := by
  intro clock s str xs h1 h2
  simp [parseTaskFromAI, h1, h2]

/-- Witness for C5: text holding both an array fragment and an object
fragment, where the array fragment is the first bracketed substring. -/
theorem claim5_array_rule_first_witness :
    arrayMatchStr "x [1, 2] and \x7b\"a\":0\x7d." = some "[1, 2]" ∧
    jsonParse (String.mk (trimJS "[1, 2]".data)) =
      some (Json.arr [Json.num "1", Json.num "2"]) ∧
    parseTaskFromAI ⟨0, 0, 0⟩ "x [1, 2] and \x7b\"a\":0\x7d." =
      some ([Json.num "1", Json.num "2"].map Cand.fromJson) :=
  ⟨rfl, rfl, claim5_array_rule_first ⟨0, 0, 0⟩ "x [1, 2] and \x7b\"a\":0\x7d." "[1, 2]"
    [Json.num "1", Json.num "2"] rfl rfl⟩

/-- C4 is false on the code: one `try/catch` wraps all tiers, so a
`JSON.parse` exception on the matched array fragment makes `parse` return
`null` immediately — it does not fall through, although the lexical tier
(the next rule) would have produced a candidate on this very text. -/
theorem claim4_exception_counterexample :
    parseTaskFromAI ⟨0, 0, 0⟩ "[oops] task: Buy milk at 5pm" = none ∧
    jsonParse "[oops]" = none ∧
    objectRule ⟨0, 0, 0⟩ "[oops] task: Buy milk at 5pm" =
      some [Cand.lexical "Buy milk" 61200000] :=
  ⟨rfl, rfl, rfl⟩

/-- C4 amended: a parse exception at any tier aborts the whole parse with
`null`; the fall-through to the next rule happens only when a tier finds
no fragment to try (and `null` is also returned when no tier matches at
all). -/
theorem claim4_exception_aborts_parse :
    (∀ (clock : Clock) (s str : String),
      arrayMatchStr s = some str →
      jsonParse (String.mk (trimJS str.data)) = none →
      parseTaskFromAI clock s = none) ∧
    (∀ (clock : Clock) (s str : String),
      arrayMatchStr s = none →
      braceMatchStr s = some str →
      jsonParse (String.mk (trimJS str.data)) = none →
      parseTaskFromAI clock s = none) ∧
    (∀ (clock : Clock) (s : String),
      arrayMatchStr s = none →
      braceMatchStr s = none →
      taskTitleCap s = none →
      parseTaskFromAI clock s = none) := by
  refine ⟨?_, ?_, ?_⟩
  · intro clock s str h1 h2
    simp [parseTaskFromAI, h1, h2]
  · intro clock s str h1 h2 h3
    simp [parseTaskFromAI, objectRule, h1, h2, h3]
  · intro clock s h1 h2 h3
    simp [parseTaskFromAI, objectRule, lexicalRule, h1, h2, h3]

/-- Witness for C4: the aborting behaviour at a concrete text whose first
bracketed fragment is invalid JSON. -/
theorem claim4_exception_aborts_parse_witness :
    arrayMatchStr "[oops] task: Buy milk at 5pm" = some "[oops]" ∧
    jsonParse (String.mk (trimJS "[oops]".data)) = none ∧
    parseTaskFromAI ⟨0, 0, 0⟩ "[oops] task: Buy milk at 5pm" = none :=
  ⟨rfl, rfl, claim4_exception_aborts_parse.1 ⟨0, 0, 0⟩ _ "[oops]" rfl rfl⟩

/-- C7 is false on the code: on `The task is: Buy milk at 5pm` the title
regex captures everything after the keyword `task` up to the time phrase,
so the produced title is `is: Buy milk`, not `Buy milk` (the time is
indeed today 17:00 local — here `midnight = 0`, so 61200000 ms). -/
theorem claim7_lexical_counterexample :
    parseTaskFromAI ⟨0, 0, 0⟩ "The task is: Buy milk at 5pm" =
      some [Cand.lexical "is: Buy milk" 61200000] ∧
    "is: Buy milk" ≠ "Buy milk" :=
  ⟨rfl, by decide⟩

/-- C7 amended: with no JSON fragment present, the lexical fallback fires
on `The task is: Buy milk at 5pm` and yields one candidate, timed today
at 17:00 local; its title is the captured phrase `is: Buy milk`. -/
theorem claim7_lexical_scenario :
    ∀ clock : Clock,
      parseTaskFromAI clock "The task is: Buy milk at 5pm" =
        some [Cand.lexical "is: Buy milk" (clock.midnight + 61200000)] := by
  intro clock
  rfl

/-- C6 (ReorderEngine re-timestamping): under the system invariants —
the supplied order lists distinct ids, the store's ids are unique, the
in-memory list holds exactly the stored records — the store after a
reorder maps each record whose id sits at position `i` of the supplied
order to the same record timed at 09:00 local today plus `i` hours, and
keeps every record whose id is absent from the order unmodified; the
displayed list is the sorted reload of that store. -/
theorem claim6_reorder_retimestamps :
    ∀ (clock : Clock) (orderedIds : List Nat) (st : AppState),
      orderedIds.Nodup →
      (st.tasks.map Task.id).Nodup →
      (st.store.map Task.id).Nodup →
      st.tasks.Perm st.store →
      (handleTaskReorder clock orderedIds st).store =
        st.store.map (reorderedRecord clock orderedIds) ∧
      (handleTaskReorder clock orderedIds st).tasks =
        loadTasks (st.store.map (reorderedRecord clock orderedIds)) := by
  intro clock ids st h1 h2 h3 h4
  have hstore : (reorderGo clock 0 ids st).store = st.store.map (reorderedRecord clock ids) := by
    rw [reorderGo_store clock ids 0 st h1 h2 h3 h4]
    refine List.map_congr_left ?_
    intro t _
    rw [reorderedRecord]
    cases hidx : idxIn t.id ids with
    | none => simp [hidx]
    | some j => simp [hidx, Nat.zero_add]
  constructor
  · show (reorderGo clock 0 ids st).store = _
    exact hstore
  · show loadTasks (reorderGo clock 0 ids st).store = _
    rw [hstore]

/-- Witness for C6: two stored tasks swapped by the order `[2, 1]` — the
task with id 2 (position 0) moves to 09:00, the task with id 1
(position 1) moves to 10:00. -/
theorem claim6_reorder_retimestamps_witness :
    ([2, 1] : List Nat).Nodup ∧
    (handleTaskReorder ⟨0, 0, 0⟩ [2, 1]
        ⟨[⟨1, some "a", 0, "", 0⟩, ⟨2, some "b", 100, "", 0⟩], 3,
          [⟨1, some "a", 0, "", 0⟩, ⟨2, some "b", 100, "", 0⟩]⟩).store =
      [⟨1, some "a", reorderTimeAt ⟨0, 0, 0⟩ 1, "", 0⟩,
        ⟨2, some "b", reorderTimeAt ⟨0, 0, 0⟩ 0, "", 0⟩] := by
  refine ⟨by decide, ?_⟩
  have h := (claim6_reorder_retimestamps ⟨0, 0, 0⟩ [2, 1]
    ⟨[⟨1, some "a", 0, "", 0⟩, ⟨2, some "b", 100, "", 0⟩], 3,
      [⟨1, some "a", 0, "", 0⟩, ⟨2, some "b", 100, "", 0⟩]⟩
    (by decide) (by decide) (by decide) (by decide)).1
  rw [h]
  decide

/-- C10 (resolve-all sweep never changes persisted data): the
button handler replaces the in-memory list with the sweep's mutated
objects, writes nothing to the store, and then reloads the sorted view
from the store, so the final state carries the persisted times unchanged;
the sweep itself does shift times in memory — every nonempty list's first
task conflicts at least with itself and moves strictly later. -/
theorem claim10_resolve_all_discards :
    (∀ st : AppState,
      handleResolveAll st = ⟨st.store, st.nextId, loadTasks st.store⟩) ∧
    (∀ (t : Task) (rest : List Task),
      t.time < ((sweepAll (t :: rest)).headD t).time) := by
  constructor
  · intro st
    rfl
  · intro t rest
    obtain ⟨tail, htail⟩ := sweepGo_prefix rest [{ t with time := t.time + oneHour }]
    have hhead : sweepAll (t :: rest) = { t with time := t.time + oneHour } :: tail := by
      calc sweepAll (t :: rest)
          = sweepGo [resolveConflicts (t :: rest) t] rest := rfl
        _ = sweepGo [{ t with time := t.time + oneHour }] rest := by
              simp [resolveConflicts, oneHour]
        _ = { t with time := t.time + oneHour } :: tail := by simpa using htail
    rw [hhead]
    have hpos : (0 : Int) < oneHour := by simp [oneHour]
    simp only [List.headD_cons]
    omega

end Aura


